import Mathlib

/-!
Verification of the `obsidian-merge-dailynotes` plugin (`src/main.ts`).

The plugin's logic is a date-range loop over daily-note files read through the
host vault API, two regular-expression substitutions, and a flat settings
object.  This file gives a shallow embedding of that logic:

* dates are modelled as day numbers (days since 0000-03-01 in the proleptic
  Gregorian calendar), matching moment's day-granularity arithmetic:
  `add(1, "days")` is `+ 1` and `isSameOrBefore` is `≤`;
* the vault is an association list from file paths to file contents;
  `vault.read`, `vault.append`, `vault.create` and `getAbstractFileByPath`
  become list operations (folders are not modelled: `createFolder(...).catch`
  only ensures the parent of a newly created file exists);
* the two `String.replace` regex calls are modelled character-list wise,
  with JavaScript semantics: a lazy quantifier matches the shortest
  possibility and a non-global replace removes only the first match.
-/

set_option linter.unusedVariables false

namespace MergeDailyNotes

/-! ## Character-list helpers used by the regex models -/

/-- Boolean prefix test on character lists. -/
def isPrefixOfL : List Char → List Char → Bool
  | [], _ => true
  | _ :: _, [] => false
  | a :: as, b :: bs => decide (a = b) && isPrefixOfL as bs

/-- Index of the first occurrence of `pat` as a contiguous sublist of `cs`
(the leftmost match position of a literal pattern, as a regex engine finds it). -/
def findSub (pat : List Char) : List Char → Option Nat
  | [] => if isPrefixOfL pat [] then some 0 else none
  | c :: tl =>
    if isPrefixOfL pat (c :: tl) then some 0
    else (findSub pat tl).map (· + 1)

/-- The closing front-matter delimiter `"---\n"` searched for by
`/^---[\s\S]*?---\n/`. -/
def fmClose : List Char := "---\n".data

/-- The code-fence delimiter `"```"` of `/```[\s\S]*?```/g`. -/
def fence : List Char := "```".data

/-! ## The two regex substitutions (src/main.ts lines 128-134) -/

/-- Model of `content.replace(/^---[\s\S]*?---\n/, "")`: if the content starts
with `---`, the lazy body matches up to the first `---\n` at or after index 3,
and that first match is removed; otherwise the content is unchanged. -/
def replaceFrontMatter (content : String) : String :=
  let cs := content.data
  if isPrefixOfL "---".data cs then
    match findSub fmClose (cs.drop 3) with
    | some i => String.mk (cs.drop (3 + i + 4))
    | none => content
  else content

/-- Model of the global replace `/```[\s\S]*?```/g` on a character list:
repeatedly remove the leftmost fence pair (opening ```` ``` ````, lazily
matched body, next ```` ``` ````) and continue after it.  When an opening
fence has no closing fence, nothing further matches and the rest is kept. -/
def stripFencesL (cs : List Char) : List Char :=
  match h1 : findSub fence cs with
  | none => cs
  | some i =>
    match h2 : findSub fence (cs.drop (i + 3)) with
    | none => cs
    | some j => cs.take i ++ stripFencesL (cs.drop (i + 3 + j + 3))
termination_by cs.length
decreasing_by
  have hne : cs ≠ [] := by
    intro hcs
    rw [hcs] at h1
    rw [show findSub fence ([] : List Char) = none from rfl] at h1
    exact Option.noConfusion h1
  have hpos : 0 < cs.length := List.length_pos.mpr hne
  simp only [List.length_drop]
  omega

/-- Model of `content.replace(/```[\s\S]*?```/g, "")`. -/
def replaceCodeBlocks (content : String) : String :=
  String.mk (stripFencesL content.data)

/-! ## Calendar arithmetic (the fragment of moment the plugin uses) -/

/-- Gregorian leap year test. -/
def isLeap (y : Nat) : Bool :=
  (y % 4 = 0 && y % 100 != 0) || y % 400 = 0

/-- Number of days in month `m` of year `y`. -/
def daysInMonth (y m : Nat) : Nat :=
  if m = 2 then (if isLeap y then 29 else 28)
  else if m = 4 ∨ m = 6 ∨ m = 9 ∨ m = 11 then 30
  else 31

/-- Day number (days since 0000-03-01) of the civil date `y-m-d`.
Standard era/year-of-era computation for the proleptic Gregorian calendar. -/
def daysFromCivil (y m d : Nat) : Nat :=
  let y' := if m ≤ 2 then y - 1 else y
  let era := y' / 400
  let yoe := y' % 400
  let mp := if 2 < m then m - 3 else m + 9
  let doy := (153 * mp + 2) / 5 + d - 1
  let doe := yoe * 365 + yoe / 4 - yoe / 100 + doy
  era * 146097 + doe

/-- Civil date `(y, m, d)` of a day number; inverse of `daysFromCivil`. -/
def civilFromDays (z : Nat) : Nat × Nat × Nat :=
  let era := z / 146097
  let doe := z % 146097
  let yoe := (doe - doe / 1460 + doe / 36524 - doe / 146096) / 365
  let y := yoe + era * 400
  let doy := doe - (365 * yoe + yoe / 4 - yoe / 100)
  let mp := (5 * doy + 2) / 153
  let d := doy - (153 * mp + 2) / 5 + 1
  let m := if mp < 10 then mp + 3 else mp - 9
  (if m ≤ 2 then y + 1 else y, m, d)

/-- Zero-padding to two digits, as in moment's `MM` / `DD`. -/
def pad2 (n : Nat) : String :=
  if n < 10 then "0" ++ toString n else toString n

/-- Zero-padding to four digits, as in moment's `YYYY`. -/
def pad4 (n : Nat) : String :=
  if n < 10 then "000" ++ toString n
  else if n < 100 then "00" ++ toString n
  else if n < 1000 then "0" ++ toString n
  else toString n

/-- `currentDate.format("YYYY-MM-DD")` on a day number. -/
def formatISO (z : Nat) : String :=
  let c := civilFromDays z
  pad4 c.1 ++ "-" ++ pad2 c.2.1 ++ "-" ++ pad2 c.2.2

/-- Split a character list at each `'-'`. -/
def splitDashAux : List Char → List Char → List (List Char)
  | [], acc => [acc.reverse]
  | c :: tl, acc =>
    if c = '-' then acc.reverse :: splitDashAux tl []
    else splitDashAux tl (c :: acc)

/-- All-digit run to a number; `none` when empty or not all digits. -/
def digitsToNat? (cs : List Char) : Option Nat :=
  if cs ≠ [] ∧ cs.all Char.isDigit then
    some (cs.foldl (fun n c => n * 10 + (c.toNat - 48)) 0)
  else none

/-- `moment(s, "YYYY-MM-DD")` as a day number; `none` models an invalid
moment (strict zero-padded ISO dates, the only values the modal's
`<input type="date">` fields produce). -/
def parseISO (s : String) : Option Nat :=
  match splitDashAux s.data [] with
  | [ys, ms, ds] =>
    match digitsToNat? ys, digitsToNat? ms, digitsToNat? ds with
    | some y, some m, some d =>
      if ys.length = 4 ∧ ms.length = 2 ∧ ds.length = 2 ∧
          1 ≤ y ∧ 1 ≤ m ∧ m ≤ 12 ∧ 1 ≤ d ∧ d ≤ daysInMonth y m then
        some (daysFromCivil y m d)
      else none
    | _, _, _ => none
  | _ => none

/-! ## Settings (src/main.ts lines 13-28, 46-56) -/

/-- The flat settings object (`MergeDailyNotesSettings`); the two nullable
string fields become `Option String`. -/
structure MergeDailyNotesSettings where
  mergePath : String
  stripFrontMatter : Bool
  stripCodeBlocks : Bool
  lastStartDate : Option String
  lastEndDate : Option String
deriving DecidableEq

/-- `DEFAULT_SETTINGS`. -/
def DEFAULT_SETTINGS : MergeDailyNotesSettings :=
  { mergePath := "Merged Notes"
    stripFrontMatter := false
    stripCodeBlocks := false
    lastStartDate := none
    lastEndDate := none }

/-- The JSON object handed to / returned by the host's `saveData` /
`loadData`: each of the five fields may be absent. -/
structure StoredData where
  mergePath : Option String
  stripFrontMatter : Option Bool
  stripCodeBlocks : Option Bool
  lastStartDate : Option (Option String)
  lastEndDate : Option (Option String)
deriving DecidableEq

/-- `Object.assign({}, DEFAULT_SETTINGS, data)`: fields present in `data`
override the defaults. -/
def objectAssign (base : MergeDailyNotesSettings) (d : StoredData) :
    MergeDailyNotesSettings :=
  { mergePath := d.mergePath.getD base.mergePath
    stripFrontMatter := d.stripFrontMatter.getD base.stripFrontMatter
    stripCodeBlocks := d.stripCodeBlocks.getD base.stripCodeBlocks
    lastStartDate := d.lastStartDate.getD base.lastStartDate
    lastEndDate := d.lastEndDate.getD base.lastEndDate }

/-- `loadSettings`: merge the loaded data (possibly `null`) over the
defaults. -/
def loadSettings (data : Option StoredData) : MergeDailyNotesSettings :=
  match data with
  | none => DEFAULT_SETTINGS
  | some d => objectAssign DEFAULT_SETTINGS d

/-- `saveSettings`: the settings object is passed unchanged to the host's
`saveData`, so every field is stored. -/
def saveSettings (s : MergeDailyNotesSettings) : StoredData :=
  { mergePath := some s.mergePath
    stripFrontMatter := some s.stripFrontMatter
    stripCodeBlocks := some s.stripCodeBlocks
    lastStartDate := some s.lastStartDate
    lastEndDate := some s.lastEndDate }

/-! ## The vault (the host file API used by the plugin) -/

/-- The vault as an association list from file paths to file contents. -/
abbrev Vault : Type := List (String × String)

/-- `vault.getAbstractFileByPath` combined with `vault.read`: content of the
first entry at path `p`, or `none` when the path does not resolve. -/
def vaultGet : Vault → String → Option String
  | [], _ => none
  | (q, c) :: rest, p => if q = p then some c else vaultGet rest p

/-- `vault.append(file, s)`: append `s` to the content stored at path `p`. -/
def vaultAppend : Vault → String → String → Vault
  | [], _, _ => []
  | (q, c) :: rest, p, s =>
    (q, if q = p then c ++ s else c) :: vaultAppend rest p s

/-- `vault.create(path, "")`: add an empty file at `path`. -/
def vaultCreate (v : Vault) (p : String) : Vault :=
  v ++ [(p, "")]

/-! ## The Daily Notes host plugin (src/main.ts lines 85-95) -/

/-- The host's Daily Notes plugin as seen through
`internalPlugins.getPluginById("daily-notes")`: its enabled flag and its
options `folder` and `format`.  The configured moment format string is
modelled as the formatting function it denotes on day numbers. -/
structure DailyNotesPlugin where
  enabled : Bool
  folder : String
  format : Nat → String

/-! ## mergeDailyNotes (src/main.ts lines 75-149) -/

/-- The daily-note path `` `${folder}/${currentDate.format(dateFormat)}.md` ``
for day number `d` (line 121). -/
def dailyPath (dn : DailyNotesPlugin) (d : Nat) : String :=
  dn.folder ++ "/" ++ dn.format d ++ ".md"

/-- Lines 128-134: apply the two stripping settings in order. -/
def applyStrips (s : MergeDailyNotesSettings) (content : String) : String :=
  let c1 := if s.stripFrontMatter then replaceFrontMatter content else content
  if s.stripCodeBlocks then replaceCodeBlocks c1 else c1

/-- Lines 139-141: the appended section
`` `## ${currentDate.format("YYYY-MM-DD")}\n\n${content}\n\n---\n\n` ``. -/
def mkSection (s : MergeDailyNotesSettings) (d : Nat) (content : String) :
    String :=
  "## " ++ formatISO d ++ "\n\n" ++ applyStrips s content ++ "\n\n---\n\n"

/-- The days visited by the `while (currentDate.isSameOrBefore(end))` loop,
starting at `cur` and advancing one day per iteration:
`cur, cur + 1, …, endD` (empty when `endD < cur`). -/
def dayList (cur endD : Nat) : List Nat :=
  List.range' cur (endD + 1 - cur)

/-- The date loop (lines 119-146).  Returns the vault after all appends and
the iteration trace: one entry per visited day, carrying the appended section
when the day's file existed and `none` when it did not. -/
def mergeLoop (v : Vault) (dn : DailyNotesPlugin)
    (s : MergeDailyNotesSettings) (outPath : String) (cur endD : Nat) :
    Vault × List (Nat × Option String) :=
  if cur ≤ endD then
    match vaultGet v (dailyPath dn cur) with
    | some content =>
      let chunk := mkSection s cur content
      let r := mergeLoop (vaultAppend v outPath chunk) dn s outPath
        (cur + 1) endD
      (r.1, (cur, some chunk) :: r.2)
    | none =>
      let r := mergeLoop v dn s outPath (cur + 1) endD
      (r.1, (cur, none) :: r.2)
  else (v, [])
termination_by endD + 1 - cur
decreasing_by all_goals omega

/-- Lines 105-117: resolve the output file.  `"new"` creates an empty file
`` `${mergePath}/${startDate} to ${endDate}.md` ``; any other selection must
resolve in the vault, else the merge fails with a notice. -/
def resolveOutput (v : Vault) (s : MergeDailyNotesSettings)
    (startDate endDate selectedFile : String) : Option (Vault × String) :=
  if selectedFile = "new" then
    let outputPath := s.mergePath ++ "/" ++ startDate ++ " to " ++ endDate
      ++ ".md"
    some (vaultCreate v outputPath, outputPath)
  else
    match vaultGet v selectedFile with
    | none => none
    | some _ => some (v, selectedFile)

/-- Lines 97-98 and 119-146: parse the two dates and run the loop.  An
invalid moment compares `isSameOrBefore` as false, so the loop body never
runs when either date fails to parse. -/
def runLoop (v : Vault) (dn : DailyNotesPlugin)
    (s : MergeDailyNotesSettings) (outPath startDate endDate : String) :
    Vault × List (Nat × Option String) :=
  match parseISO startDate, parseISO endDate with
  | some a, some b => mergeLoop v dn s outPath a b
  | _, _ => (v, [])

/-- How an invocation of `mergeDailyNotes` ends: one of the two
failure notices, or a merge into `outputPath` with the given loop trace. -/
inductive MergeOutcome where
  | noticeDailyNotesDisabled : MergeOutcome
  | noticeFileNotFound : MergeOutcome
  | merged : String → List (Nat × Option String) → MergeOutcome
deriving DecidableEq

/-- The observable result of `mergeDailyNotes`: the settings object after the
call (persisted by `saveSettings`), the vault after the call, and the
outcome. -/
structure MergeResult where
  settings : MergeDailyNotesSettings
  vault : Vault
  outcome : MergeOutcome

/-- `mergeDailyNotes(startDate, endDate, selectedFile)` (lines 75-149).
`dn` is the result of `getPluginById("daily-notes")` (`none` when the host
plugin is missing). -/
def mergeDailyNotes (dn : Option DailyNotesPlugin) (v : Vault)
    (s : MergeDailyNotesSettings) (startDate endDate selectedFile : String) :
    MergeResult :=
  let s' := { s with lastStartDate := some startDate,
                     lastEndDate := some endDate }
  match dn with
  | none => ⟨s', v, .noticeDailyNotesDisabled⟩
  | some plug =>
    if plug.enabled then
      match resolveOutput v s startDate endDate selectedFile with
      | none => ⟨s', v, .noticeFileNotFound⟩
      | some (v1, outPath) =>
        let r := runLoop v1 plug s' outPath startDate endDate
        ⟨s', r.1, .merged outPath r.2⟩
    else ⟨s', v, .noticeDailyNotesDisabled⟩

/-! ## User interface structure (DatePickerModal.onOpen, lines 168-226, and
MergeDailyNotesSettingTab.display, lines 243-292) -/

/-- A control created on the modal or the settings panel. -/
inductive UIControl where
  | label : String → UIControl
  | dateInput : UIControl
  | fileSelect : UIControl
  | button : String → UIControl
  | heading : String → UIControl
  | textSetting : String → UIControl
  | toggleSetting : String → UIControl
deriving DecidableEq

/-- The controls `DatePickerModal.onOpen` creates, in order: two labelled
date inputs, a labelled output-file dropdown, and the submit button. -/
def datePickerModalControls : List UIControl :=
  [.label "Start Date:", .dateInput,
   .label "End Date:", .dateInput,
   .label "Select Output File:", .fileSelect,
   .button "Merge Notes"]

/-- The controls `MergeDailyNotesSettingTab.display` creates, in order: a
heading, one text setting (`addText`) and two toggle settings
(`addToggle`). -/
def settingTabControls : List UIControl :=
  [.heading "Merge Daily Notes Settings",
   .textSetting "Merge Path",
   .toggleSetting "Strip out Front Matter",
   .toggleSetting "Strip out Code Blocks"]

/-- Is the control a toggle (boolean) setting? -/
def isToggle : UIControl → Bool
  | .toggleSetting _ => true
  | _ => false

/-- Is the control a setting row (text or toggle) on the settings panel? -/
def isSettingRow : UIControl → Bool
  | .textSetting _ => true
  | .toggleSetting _ => true
  | _ => false

/-- Is the control a date input? -/
def isDateInput : UIControl → Bool
  | .dateInput => true
  | _ => false

/-- Is the control the output-file dropdown? -/
def isFileSelect : UIControl → Bool
  | .fileSelect => true
  | _ => false

/-! ## Shape combinators used to state the regex claims -/

/-- Right-fold concatenation of a list of strings. -/
def concatList : List String → String
  | [] => ""
  | s :: rest => s ++ concatList rest

/-- A document interleaving plain text with fenced code blocks:
`interleave [(t₁, c₁), …, (tₙ, cₙ)] tail` is
`t₁ ++ "```" ++ c₁ ++ "```" ++ … ++ tₙ ++ "```" ++ cₙ ++ "```" ++ tail`. -/
def interleave : List (String × String) → String → String
  | [], tail => tail
  | (t, c) :: rest, tail =>
    t ++ "```" ++ c ++ "```" ++ interleave rest tail

/-- No complete fence pair occurs in `cs`: either no ```` ``` ```` at all, or
no second ```` ``` ```` after the first one. -/
def noFenceB (cs : List Char) : Bool :=
  match findSub fence cs with
  | none => true
  | some i => (findSub fence (cs.drop (i + 3))).isNone

/-! ## Concrete fixtures used by the witnesses -/

/-- A concrete Daily Notes host plugin configuration: enabled, folder
`Daily`, date format `YYYY-MM-DD`. -/
def dnW : DailyNotesPlugin :=
  { enabled := true, folder := "Daily", format := formatISO }

/-- A concrete vault: an output file and a daily note for 2024-01-01; the
note for 2024-01-02 is missing. -/
def vaultW : Vault :=
  [("out.md", "start;"), ("Daily/2024-01-01.md", "note one")]

/-! # Theorems -/

/-! ## String and character-list helper lemmas -/

theorem mk_data (s : String) : String.mk s.data = s := by
  cases s
  rfl

theorem mk_append (l1 l2 : List Char) :
    String.mk (l1 ++ l2) = String.mk l1 ++ String.mk l2 := rfl

theorem fmClose_eq : fmClose = ['-', '-', '-', '\n'] := rfl

theorem fence_eq : fence = ['\x60', '\x60', '\x60'] := rfl

theorem isPrefixOfL_self_append (p r : List Char) :
    isPrefixOfL p (p ++ r) = true := by
  induction p with
  | nil => rfl
  | cons a as ih => simp [isPrefixOfL, ih]

theorem isPrefixOfL_append_right {p s : List Char} (z : List Char)
    (h : isPrefixOfL p s = true) : isPrefixOfL p (s ++ z) = true := by
  induction p generalizing s with
  | nil => rfl
  | cons a as ih =>
    cases s with
    | nil => exact absurd h (by simp [isPrefixOfL])
    | cons b bs =>
      simp only [isPrefixOfL, List.cons_append, Bool.and_eq_true,
        decide_eq_true_eq] at h ⊢
      exact ⟨h.1, ih h.2⟩

theorem isPrefixOfL_of_append {p s : List Char} (z : List Char)
    (hlen : p.length ≤ s.length) (h : isPrefixOfL p (s ++ z) = true) :
    isPrefixOfL p s = true := by
  induction p generalizing s with
  | nil => rfl
  | cons a as ih =>
    cases s with
    | nil => simp at hlen
    | cons b bs =>
      simp only [isPrefixOfL, List.cons_append, Bool.and_eq_true,
        decide_eq_true_eq] at h ⊢
      refine ⟨h.1, ih ?_ h.2⟩
      simp only [List.length_cons] at hlen
      omega

theorem findSub_none_drop {pat : List Char} :
    ∀ {cs : List Char}, findSub pat cs = none →
      ∀ i, isPrefixOfL pat (cs.drop i) = false := by
  intro cs
  induction cs with
  | nil =>
    intro h i
    rw [List.drop_nil]
    cases hp : isPrefixOfL pat [] with
    | false => rfl
    | true =>
      rw [findSub, if_pos hp] at h
      exact Option.noConfusion h
  | cons c tl ih =>
    intro h i
    cases hp : isPrefixOfL pat (c :: tl) with
    | true =>
      rw [findSub, if_pos hp] at h
      exact Option.noConfusion h
    | false =>
      rw [findSub, if_neg (by simp [hp])] at h
      have htl : findSub pat tl = none := by
        cases he : findSub pat tl with
        | none => rfl
        | some k =>
          rw [he] at h
          simp at h
      cases i with
      | zero => exact hp
      | succ n =>
        rw [List.drop_succ_cons]
        exact ih htl n

theorem findSub_concat {pat rest : List Char} (hne : pat ≠ []) :
    ∀ xs : List Char,
      (∀ i, i < xs.length →
        isPrefixOfL pat (xs.drop i ++ (pat ++ rest)) = false) →
      findSub pat (xs ++ (pat ++ rest)) = some xs.length := by
  intro xs
  induction xs with
  | nil =>
    intro _
    cases pat with
    | nil => exact absurd rfl hne
    | cons p ps =>
      rw [List.nil_append, List.cons_append, findSub,
        if_pos (by rw [← List.cons_append]; exact isPrefixOfL_self_append _ _)]
      rfl
  | cons x tl ih =>
    intro hstr
    have h0 : isPrefixOfL pat (x :: (tl ++ (pat ++ rest))) = false := by
      have := hstr 0 (by simp)
      simpa using this
    rw [List.cons_append, findSub, if_neg (by simp [h0])]
    have htl : findSub pat (tl ++ (pat ++ rest)) = some tl.length := by
      refine ih ?_
      intro i hi
      have := hstr (i + 1) (by simp only [List.length_cons]; omega)
      simpa using this
    rw [htl]
    simp

theorem fmClose_short_no_prefix {s : List Char} (z : List Char) (h1 : s ≠ [])
    (h2 : s.length < 4) :
    isPrefixOfL fmClose (s ++ (fmClose ++ z)) = false := by
  have hf : decide ('\n' = '-') = false := rfl
  rcases s with _ | ⟨a, _ | ⟨b, _ | ⟨c, _ | ⟨d, t⟩⟩⟩⟩
  · exact absurd rfl h1
  · simp only [fmClose_eq, isPrefixOfL, List.cons_append, List.nil_append, hf]
    simp
  · simp only [fmClose_eq, isPrefixOfL, List.cons_append, List.nil_append, hf]
    simp
  · simp only [fmClose_eq, isPrefixOfL, List.cons_append, List.nil_append, hf]
    simp
  · simp only [List.length_cons] at h2
    omega

theorem fmClose_no_straddle {xs : List Char} (rest : List Char)
    (h : findSub fmClose xs = none) :
    ∀ i, i < xs.length →
      isPrefixOfL fmClose (xs.drop i ++ (fmClose ++ rest)) = false := by
  intro i hi
  cases hp : isPrefixOfL fmClose (xs.drop i ++ (fmClose ++ rest)) with
  | false => rfl
  | true =>
    exfalso
    by_cases hlen : 4 ≤ (xs.drop i).length
    · have hps : isPrefixOfL fmClose (xs.drop i) = true :=
        isPrefixOfL_of_append _ (by rw [show fmClose.length = 4 from rfl]; omega) hp
      have hnone := findSub_none_drop h i
      rw [hps] at hnone
      exact Bool.noConfusion hnone
    · have hne : xs.drop i ≠ [] :=
        List.ne_nil_of_length_pos (by simp only [List.length_drop]; omega)
      have hfalse := fmClose_short_no_prefix rest hne (by omega)
      rw [hp] at hfalse
      exact Bool.noConfusion hfalse

theorem fence_short_prefix_pad {s : List Char} (z : List Char) (h1 : s ≠ [])
    (h2 : s.length < 3)
    (hp : isPrefixOfL fence (s ++ (fence ++ z)) = true) :
    isPrefixOfL fence (s ++ ['\x60', '\x60']) = true := by
  rcases s with _ | ⟨a, _ | ⟨b, _ | ⟨c, t⟩⟩⟩
  · exact absurd rfl h1
  · simp only [fence_eq, isPrefixOfL, List.cons_append, List.nil_append,
      Bool.and_eq_true, decide_eq_true_eq] at hp
    obtain ⟨ha, -⟩ := hp
    subst ha
    decide
  · simp only [fence_eq, isPrefixOfL, List.cons_append, List.nil_append,
      Bool.and_eq_true, decide_eq_true_eq] at hp
    obtain ⟨ha, hb, -⟩ := hp
    subst ha
    subst hb
    decide
  · simp only [List.length_cons] at h2
    omega

theorem fence_no_straddle {xs : List Char} (rest : List Char)
    (h : findSub fence (xs ++ ['\x60', '\x60']) = none) :
    ∀ i, i < xs.length →
      isPrefixOfL fence (xs.drop i ++ (fence ++ rest)) = false := by
  intro i hi
  cases hp : isPrefixOfL fence (xs.drop i ++ (fence ++ rest)) with
  | false => rfl
  | true =>
    exfalso
    have hdrop : (xs ++ ['\x60', '\x60']).drop i
        = xs.drop i ++ ['\x60', '\x60'] :=
      List.drop_append_of_le_length (by omega)
    have hnone := findSub_none_drop h i
    rw [hdrop] at hnone
    by_cases hlen : 3 ≤ (xs.drop i).length
    · have hps : isPrefixOfL fence (xs.drop i) = true :=
        isPrefixOfL_of_append _ (by rw [show fence.length = 3 from rfl]; omega) hp
      rw [isPrefixOfL_append_right _ hps] at hnone
      exact Bool.noConfusion hnone
    · have hne : xs.drop i ≠ [] :=
        List.ne_nil_of_length_pos (by simp only [List.length_drop]; omega)
      rw [fence_short_prefix_pad rest hne (by omega) hp] at hnone
      exact Bool.noConfusion hnone

theorem replaceFrontMatter_strips (body rest : String)
    (h : findSub fmClose ("\n" ++ body).data = none) :
    replaceFrontMatter ("---\n" ++ body ++ ("---\n" ++ rest)) = rest := by
  have hnl : ("\n" ++ body).data = '\n' :: body.data := by
    rw [String.data_append]
    rfl
  rw [hnl] at h
  have hdata : ("---\n" ++ body ++ ("---\n" ++ rest)).data
      = ['-', '-', '-'] ++ (('\n' :: body.data) ++ (fmClose ++ rest.data)) := by
    simp only [String.data_append, fmClose_eq,
      show "---\n".data = ['-', '-', '-', '\n'] from rfl]
    simp
  have hpre : isPrefixOfL "---".data
      (['-', '-', '-'] ++ (('\n' :: body.data) ++ (fmClose ++ rest.data)))
      = true := by
    rw [show "---".data = ['-', '-', '-'] from rfl]
    exact isPrefixOfL_self_append _ _
  have hfind : findSub fmClose
      (('\n' :: body.data) ++ (fmClose ++ rest.data))
      = some ('\n' :: body.data).length :=
    findSub_concat (by simp [fmClose_eq]) _ (fmClose_no_straddle _ h)
  have hdrop3 : (['-', '-', '-']
      ++ (('\n' :: body.data) ++ (fmClose ++ rest.data))).drop 3
      = ('\n' :: body.data) ++ (fmClose ++ rest.data) :=
    List.drop_left' rfl
  simp only [replaceFrontMatter, hdata, hpre, if_true, hdrop3, hfind,
    List.length_cons]
  have hsplit : ['-', '-', '-'] ++ (('\n' :: body.data) ++ (fmClose ++ rest.data))
      = (['-', '-', '-'] ++ ('\n' :: body.data) ++ fmClose) ++ rest.data := by
    simp [List.append_assoc]
  have hlen : (['-', '-', '-'] ++ ('\n' :: body.data) ++ fmClose).length
      = 3 + (body.data.length + 1) + 4 := by
    simp [fmClose_eq]
    omega
  rw [hsplit, List.drop_left' hlen, mk_data]

theorem replaceFrontMatter_no_lead {content : String}
    (h : isPrefixOfL "---".data content.data = false) :
    replaceFrontMatter content = content := by
  simp only [replaceFrontMatter, h]
  simp

theorem stripFencesL_eq_no_open {cs : List Char}
    (h : findSub fence cs = none) : stripFencesL cs = cs := by
  rw [stripFencesL]
  split
  · rfl
  · next i heq =>
    rw [h] at heq
    exact Option.noConfusion heq

theorem stripFencesL_eq_unclosed {cs : List Char} {i : Nat}
    (h1 : findSub fence cs = some i)
    (h2 : findSub fence (cs.drop (i + 3)) = none) :
    stripFencesL cs = cs := by
  rw [stripFencesL]
  split
  · rfl
  · next i' heq =>
    rw [h1] at heq
    injection heq with hi
    subst hi
    split
    · rfl
    · next j heq2 =>
      rw [h2] at heq2
      exact Option.noConfusion heq2

theorem stripFencesL_eq_step {cs : List Char} {i j : Nat}
    (h1 : findSub fence cs = some i)
    (h2 : findSub fence (cs.drop (i + 3)) = some j) :
    stripFencesL cs = cs.take i ++ stripFencesL (cs.drop (i + 3 + j + 3)) := by
  conv =>
    lhs
    rw [stripFencesL]
  split
  · next heq =>
    rw [h1] at heq
    exact Option.noConfusion heq
  · next i' heq =>
    rw [h1] at heq
    injection heq with hi
    subst hi
    split
    · next heq2 =>
      rw [h2] at heq2
      exact Option.noConfusion heq2
    · next j' heq2 =>
      rw [h2] at heq2
      injection heq2 with hj
      subst hj
      rfl

theorem stripFencesL_interleave :
    ∀ (ps : List (String × String)) (tail : String),
      (∀ p ∈ ps, findSub fence (p.1.data ++ ['\x60', '\x60']) = none
        ∧ findSub fence (p.2.data ++ ['\x60', '\x60']) = none) →
      noFenceB tail.data = true →
      stripFencesL (interleave ps tail).data
        = (concatList (ps.map Prod.fst)).data ++ tail.data := by
  intro ps
  induction ps with
  | nil =>
    intro tail _ htail
    have hstrip : stripFencesL tail.data = tail.data := by
      cases hf : findSub fence tail.data with
      | none => exact stripFencesL_eq_no_open hf
      | some i =>
        simp only [noFenceB, hf] at htail
        cases hf2 : findSub fence (tail.data.drop (i + 3)) with
        | none => exact stripFencesL_eq_unclosed hf hf2
        | some j =>
          rw [hf2] at htail
          simp [Option.isNone] at htail
    simp [interleave, concatList, hstrip]
  | cons p rest ih =>
    intro tail hps htail
    obtain ⟨t, c⟩ := p
    obtain ⟨hT, hC⟩ := hps (t, c) (by simp)
    have hrest : ∀ q ∈ rest, findSub fence (q.1.data ++ ['\x60', '\x60']) = none
        ∧ findSub fence (q.2.data ++ ['\x60', '\x60']) = none := by
      intro q hq
      exact hps q (by simp [hq])
    have hcs : (interleave ((t, c) :: rest) tail).data
        = t.data ++ (fence ++ (c.data ++ (fence ++ (interleave rest tail).data))) := by
      simp [interleave, String.data_append, fence_eq, List.append_assoc]
    have h1 : findSub fence
        (t.data ++ (fence ++ (c.data ++ (fence ++ (interleave rest tail).data))))
        = some t.data.length :=
      findSub_concat (by simp [fence_eq]) _ (fence_no_straddle _ hT)
    have hd1 : (t.data
          ++ (fence ++ (c.data ++ (fence ++ (interleave rest tail).data)))).drop
          (t.data.length + 3)
        = c.data ++ (fence ++ (interleave rest tail).data) := by
      rw [List.drop_append 3]
      exact List.drop_left' rfl
    have h2 : findSub fence (c.data ++ (fence ++ (interleave rest tail).data))
        = some c.data.length :=
      findSub_concat (by simp [fence_eq]) _ (fence_no_straddle _ hC)
    have hd2 : (t.data
          ++ (fence ++ (c.data ++ (fence ++ (interleave rest tail).data)))).drop
          (t.data.length + 3 + c.data.length + 3)
        = (interleave rest tail).data := by
      rw [show t.data.length + 3 + c.data.length + 3
          = t.data.length + (3 + c.data.length + 3) from by omega]
      rw [List.drop_append]
      rw [show 3 + c.data.length + 3 = fence.length + (c.data.length + 3) from by
        rw [show fence.length = 3 from rfl]
        omega]
      rw [List.drop_append]
      rw [show c.data.length + 3 = c.data.length + 3 from rfl]
      rw [List.drop_append]
      exact List.drop_left' rfl
    rw [hcs, stripFencesL_eq_step h1 (by rw [hd1]; exact h2)]
    rw [hd2, List.take_left, ih tail hrest htail]
    simp [concatList, String.data_append, List.append_assoc]

/-! ## Day-range lemmas -/

theorem dayList_nil {cur endD : Nat} (h : ¬ cur ≤ endD) :
    dayList cur endD = [] := by
  rw [dayList, show endD + 1 - cur = 0 from by omega]
  rfl

theorem dayList_cons {cur endD : Nat} (h : cur ≤ endD) :
    dayList cur endD = cur :: dayList (cur + 1) endD := by
  rw [dayList, dayList,
    show endD + 1 - cur = (endD + 1 - (cur + 1)) + 1 from by omega,
    List.range'_succ]

theorem dayList_length (cur endD : Nat) :
    (dayList cur endD).length = endD + 1 - cur := by
  rw [dayList, List.length_range']

theorem dayList_pairwise (cur endD : Nat) :
    List.Pairwise (· < ·) (dayList cur endD) := by
  rw [dayList]
  exact List.pairwise_lt_range' _ _

theorem dayList_chain_aux :
    ∀ (n cur endD : Nat), endD + 1 - cur = n →
      List.Chain' (fun x y => y = x + 1) (dayList cur endD) := by
  intro n
  induction n with
  | zero =>
    intro cur endD h
    rw [dayList_nil (by omega)]
    exact List.chain'_nil
  | succ m ih =>
    intro cur endD h
    have hle : cur ≤ endD := by omega
    rw [dayList_cons hle, List.chain'_cons']
    constructor
    · intro b hb
      by_cases h2 : cur + 1 ≤ endD
      · rw [dayList_cons h2] at hb
        simp at hb
        omega
      · rw [dayList_nil h2] at hb
        simp at hb
    · exact ih (cur + 1) endD (by omega)

theorem dayList_chain (cur endD : Nat) :
    List.Chain' (fun x y => y = x + 1) (dayList cur endD) :=
  dayList_chain_aux _ cur endD rfl

/-! ## Vault lemmas -/

theorem vaultGet_append_self (v : Vault) (p s' : String) :
    vaultGet (vaultAppend v p s') p = (vaultGet v p).map (· ++ s') := by
  induction v with
  | nil => rfl
  | cons e rest ih =>
    obtain ⟨q, c⟩ := e
    by_cases hq : q = p
    · subst hq
      simp [vaultAppend, vaultGet]
    · simp [vaultAppend, vaultGet, hq, ih]

theorem vaultGet_append_ne {q p : String} (h : q ≠ p) (v : Vault)
    (s' : String) : vaultGet (vaultAppend v p s') q = vaultGet v q := by
  induction v with
  | nil => rfl
  | cons e rest ih =>
    obtain ⟨k, c⟩ := e
    by_cases hk : k = q
    · subst hk
      simp [vaultAppend, vaultGet, h]
    · simp [vaultAppend, vaultGet, hk, ih]

theorem vaultGet_create_fresh (v : Vault) (p : String)
    (h : vaultGet v p = none) : vaultGet (vaultCreate v p) p = some "" := by
  induction v with
  | nil => simp [vaultCreate, vaultGet]
  | cons e rest ih =>
    obtain ⟨q, c⟩ := e
    rw [vaultGet] at h
    by_cases hq : q = p
    · rw [if_pos hq] at h
      exact Option.noConfusion h
    · rw [if_neg hq] at h
      simp only [vaultCreate, List.cons_append, vaultGet, if_neg hq]
      exact ih h

/-! ## Merge-loop lemmas -/

theorem mergeLoop_stop {v : Vault} {dn : DailyNotesPlugin}
    {s : MergeDailyNotesSettings} {o : String} {cur endD : Nat}
    (h : ¬ cur ≤ endD) : mergeLoop v dn s o cur endD = (v, []) := by
  rw [mergeLoop, if_neg h]

theorem mergeLoop_hit {v : Vault} {dn : DailyNotesPlugin}
    {s : MergeDailyNotesSettings} {o : String} {cur endD : Nat}
    {content : String} (h : cur ≤ endD)
    (hg : vaultGet v (dailyPath dn cur) = some content) :
    mergeLoop v dn s o cur endD =
      ((mergeLoop (vaultAppend v o (mkSection s cur content)) dn s o
          (cur + 1) endD).1,
        (cur, some (mkSection s cur content))
          :: (mergeLoop (vaultAppend v o (mkSection s cur content)) dn s o
              (cur + 1) endD).2) := by
  conv =>
    lhs
    rw [mergeLoop]
  rw [if_pos h, hg]

theorem mergeLoop_miss {v : Vault} {dn : DailyNotesPlugin}
    {s : MergeDailyNotesSettings} {o : String} {cur endD : Nat}
    (h : cur ≤ endD) (hg : vaultGet v (dailyPath dn cur) = none) :
    mergeLoop v dn s o cur endD =
      ((mergeLoop v dn s o (cur + 1) endD).1,
        (cur, none) :: (mergeLoop v dn s o (cur + 1) endD).2) := by
  conv =>
    lhs
    rw [mergeLoop]
  rw [if_pos h, hg]

theorem mergeLoop_days {dn : DailyNotesPlugin} {s : MergeDailyNotesSettings}
    {o : String} :
    ∀ (n cur endD : Nat) (v : Vault), endD + 1 - cur = n →
      (mergeLoop v dn s o cur endD).2.map Prod.fst = dayList cur endD := by
  intro n
  induction n with
  | zero =>
    intro cur endD v h
    rw [mergeLoop_stop (by omega), dayList_nil (by omega)]
    rfl
  | succ m ih =>
    intro cur endD v h
    have hle : cur ≤ endD := by omega
    cases hg : vaultGet v (dailyPath dn cur) with
    | some content =>
      rw [mergeLoop_hit hle hg, dayList_cons hle]
      simp only [List.map_cons]
      rw [ih (cur + 1) endD _ (by omega)]
    | none =>
      rw [mergeLoop_miss hle hg, dayList_cons hle]
      simp only [List.map_cons]
      rw [ih (cur + 1) endD _ (by omega)]

theorem mergeLoop_trace {dn : DailyNotesPlugin} {s : MergeDailyNotesSettings}
    {o : String} :
    ∀ (n cur endD : Nat) (v : Vault), endD + 1 - cur = n →
      (∀ d ∈ dayList cur endD, dailyPath dn d ≠ o) →
      (mergeLoop v dn s o cur endD).2
        = (dayList cur endD).map
            (fun d => (d, (vaultGet v (dailyPath dn d)).map (mkSection s d))) := by
  intro n
  induction n with
  | zero =>
    intro cur endD v h _
    rw [mergeLoop_stop (by omega), dayList_nil (by omega)]
    rfl
  | succ m ih =>
    intro cur endD v h halias
    have hle : cur ≤ endD := by omega
    have halias' : ∀ d ∈ dayList (cur + 1) endD, dailyPath dn d ≠ o := by
      intro d hd
      exact halias d (by rw [dayList_cons hle]; exact List.mem_cons_of_mem _ hd)
    cases hg : vaultGet v (dailyPath dn cur) with
    | some content =>
      rw [mergeLoop_hit hle hg, dayList_cons hle, List.map_cons, hg]
      simp only [Option.map_some']
      refine congrArg (List.cons _) ?_
      rw [ih (cur + 1) endD _ (by omega) halias']
      refine List.map_congr_left ?_
      intro d hd
      rw [vaultGet_append_ne (halias' d hd)]
    | none =>
      rw [mergeLoop_miss hle hg, dayList_cons hle, List.map_cons, hg]
      simp only [Option.map_none']
      refine congrArg (List.cons _) ?_
      exact ih (cur + 1) endD _ (by omega) halias'

theorem mergeLoop_out {dn : DailyNotesPlugin} {s : MergeDailyNotesSettings}
    {o : String} :
    ∀ (n cur endD : Nat) (v : Vault), endD + 1 - cur = n →
      vaultGet (mergeLoop v dn s o cur endD).1 o
        = (vaultGet v o).map
            (· ++ concatList
              ((mergeLoop v dn s o cur endD).2.filterMap Prod.snd)) := by
  intro n
  induction n with
  | zero =>
    intro cur endD v h
    rw [mergeLoop_stop (by omega)]
    cases vaultGet v o <;> simp [concatList]
  | succ m ih =>
    intro cur endD v h
    have hle : cur ≤ endD := by omega
    cases hg : vaultGet v (dailyPath dn cur) with
    | some content =>
      rw [mergeLoop_hit hle hg, ih (cur + 1) endD _ (by omega),
        vaultGet_append_self]
      cases vaultGet v o <;> simp [concatList, String.append_assoc]
    | none =>
      rw [mergeLoop_miss hle hg, ih (cur + 1) endD _ (by omega)]
      simp [concatList]

/-! ## mergeDailyNotes unfolding helpers -/

theorem runLoop_some {v : Vault} {dn : DailyNotesPlugin}
    {s : MergeDailyNotesSettings} {o sd ed : String} {a b : Nat}
    (hsd : parseISO sd = some a) (hed : parseISO ed = some b) :
    runLoop v dn s o sd ed = mergeLoop v dn s o a b := by
  simp [runLoop, hsd, hed]

theorem mergeDailyNotes_ok_outcome {plug : DailyNotesPlugin} {v v1 : Vault}
    {s : MergeDailyNotesSettings} {sd ed sel outP : String}
    (hen : plug.enabled = true)
    (hres : resolveOutput v s sd ed sel = some (v1, outP)) :
    (mergeDailyNotes (some plug) v s sd ed sel).outcome
      = MergeOutcome.merged outP
          (runLoop v1 plug
            { s with lastStartDate := some sd, lastEndDate := some ed }
            outP sd ed).2 := by
  simp [mergeDailyNotes, hen, hres]

theorem mergeDailyNotes_ok_vault {plug : DailyNotesPlugin} {v v1 : Vault}
    {s : MergeDailyNotesSettings} {sd ed sel outP : String}
    (hen : plug.enabled = true)
    (hres : resolveOutput v s sd ed sel = some (v1, outP)) :
    (mergeDailyNotes (some plug) v s sd ed sel).vault
      = (runLoop v1 plug
          { s with lastStartDate := some sd, lastEndDate := some ed }
          outP sd ed).1 := by
  simp [mergeDailyNotes, hen, hres]

/-! ## Claim theorems -/

/-- C1: `mergeDailyNotes` visits the days of the range `startDate..endDate`
in strictly increasing calendar order; for each day whose daily-note file
`<folder>/<formatted date>.md` exists it appends to the single chosen output
file the section `## YYYY-MM-DD\n\n` ++ (possibly stripped content) ++
`\n\n---\n\n` (this is `mkSection`), and the output file's content grows by
exactly the in-date-order concatenation of the sections of the existing
daily notes of the range.  (The hypothesis `halias` states that the chosen
output file is not itself one of the daily-note files of the range.) -/
theorem mergeDailyNotes_in_order_concat
    (plug : DailyNotesPlugin) (v v1 : Vault) (s : MergeDailyNotesSettings)
    (sd ed sel outP : String) (a b : Nat)
    (hen : plug.enabled = true)
    (hres : resolveOutput v s sd ed sel = some (v1, outP))
    (hsd : parseISO sd = some a) (hed : parseISO ed = some b)
    (halias : ∀ d ∈ dayList a b, dailyPath plug d ≠ outP) :
    (mergeDailyNotes (some plug) v s sd ed sel).outcome
      = MergeOutcome.merged outP
          ((dayList a b).map
            (fun d => (d, (vaultGet v1 (dailyPath plug d)).map (mkSection s d))))
    ∧ List.Pairwise (· < ·) (dayList a b)
    ∧ vaultGet (mergeDailyNotes (some plug) v s sd ed sel).vault outP
        = (vaultGet v1 outP).map
            (· ++ concatList ((dayList a b).filterMap
              (fun d => (vaultGet v1 (dailyPath plug d)).map (mkSection s d)))) := by
  have hrun : runLoop v1 plug
      { s with lastStartDate := some sd, lastEndDate := some ed } outP sd ed
      = mergeLoop v1 plug
          { s with lastStartDate := some sd, lastEndDate := some ed }
          outP a b :=
    runLoop_some hsd hed
  have htrace := @mergeLoop_trace plug
    { s with lastStartDate := some sd, lastEndDate := some ed } outP
    (b + 1 - a) a b v1 rfl halias
  have hout := @mergeLoop_out plug
    { s with lastStartDate := some sd, lastEndDate := some ed } outP
    (b + 1 - a) a b v1 rfl
  refine ⟨?_, dayList_pairwise a b, ?_⟩
  · rw [mergeDailyNotes_ok_outcome hen hres, hrun, htrace]
    rfl
  · rw [mergeDailyNotes_ok_vault hen hres, hrun, hout, htrace,
      List.filterMap_map]
    rfl

/-- C6: the date loop terminates and performs exactly
`max(0, endDate - startDate + 1)` iterations (`endD + 1 - cur` in truncated
natural subtraction): the loop trace visits exactly the days of `dayList`,
whose length is `endD + 1 - cur`, which is empty when `endD < cur`, and
which advances by exactly one day per step. -/
theorem mergeLoop_iteration_count (v : Vault) (dn : DailyNotesPlugin)
    (s : MergeDailyNotesSettings) (o : String) (cur endD : Nat) :
    (mergeLoop v dn s o cur endD).2.map Prod.fst = dayList cur endD
    ∧ (dayList cur endD).length = endD + 1 - cur
    ∧ (endD < cur → dayList cur endD = [])
    ∧ List.Chain' (fun x y => y = x + 1) (dayList cur endD) :=
  ⟨mergeLoop_days _ cur endD v rfl, dayList_length cur endD,
    fun h => dayList_nil (by omega), dayList_chain cur endD⟩

/-- C2 (amended): when `stripFrontMatter` is set, a daily-note content that
begins with a YAML front-matter block delimited by `---` lines whose closing
`---` line is newline-terminated loses exactly that leading block — the two
delimiter lines (the closing line's newline included) and everything between
them — and a content that does not begin with `---` is unchanged.  The
hypothesis `findSub fmClose ("\n" ++ body).data = none` says no `---` line
occurs inside the block's body, i.e. the written `---\n` is the block's
closing delimiter. -/
theorem replaceFrontMatter_spec :
    (∀ body rest : String, findSub fmClose ("\n" ++ body).data = none →
      replaceFrontMatter ("---\n" ++ body ++ ("---\n" ++ rest)) = rest)
    ∧ (∀ content : String, isPrefixOfL "---".data content.data = false →
      replaceFrontMatter content = content) :=
  ⟨replaceFrontMatter_strips, fun _ h => replaceFrontMatter_no_lead h⟩

/-- C2 witness: a concrete front matter is stripped exactly, and a content
not starting with `---` is unchanged. -/
theorem replaceFrontMatter_spec_witness :
    (findSub fmClose ("\n" ++ "title: x\n").data = none
      ∧ replaceFrontMatter ("---\n" ++ "title: x\n" ++ ("---\n" ++ "Hello"))
          = "Hello")
    ∧ (isPrefixOfL "---".data "plain note".data = false
      ∧ replaceFrontMatter "plain note" = "plain note") :=
  ⟨⟨by decide, replaceFrontMatter_spec.1 "title: x\n" "Hello" (by decide)⟩,
    ⟨by decide, replaceFrontMatter_spec.2 "plain note" (by decide)⟩⟩

/-- C2 counterexample, two failing inputs.  First, `"---\nk: v\n---"` begins
with a front-matter block delimited by `---` lines (the closing `---` is the
final line, with no trailing newline); the claim mandates removing the
block, which here is the whole content, leaving `""`, but the regex requires
a trailing `"---\n"` and leaves the content unchanged.  Second, in
`"---\na: x---\nb\n---\nrest"` the block is delimited by the `---` lines 1
and 4, so the claim mandates the result `"rest"`, but the lazy match stops
at the `---\n` embedded in the body line `a: x---`, removing less than the
block. -/
theorem replaceFrontMatter_counterexample :
    (replaceFrontMatter "---\nk: v\n---" = "---\nk: v\n---"
      ∧ ¬ replaceFrontMatter "---\nk: v\n---" = "")
    ∧ (replaceFrontMatter "---\na: x---\nb\n---\nrest" = "b\n---\nrest"
      ∧ ¬ replaceFrontMatter "---\na: x---\nb\n---\nrest" = "rest") :=
  ⟨⟨by decide, by decide⟩, ⟨by decide, by decide⟩⟩

/-- C3: when `stripCodeBlocks` is set, every fenced code block — a substring
opened by ```` ``` ```` and closed by the next ```` ``` ```` — is removed,
fence delimiters included, and the text outside the blocks is preserved: on
any document interleaving texts with fenced blocks (texts and block bodies
containing no fence, and no complete fence pair after the last block), the
replace returns exactly the concatenated outside texts. -/
theorem replaceCodeBlocks_spec :
    ∀ (ps : List (String × String)) (tail : String),
      (∀ p ∈ ps, findSub fence (p.1.data ++ ['\x60', '\x60']) = none
        ∧ findSub fence (p.2.data ++ ['\x60', '\x60']) = none) →
      noFenceB tail.data = true →
      replaceCodeBlocks (interleave ps tail)
        = concatList (ps.map Prod.fst) ++ tail := by
  intro ps tail hps htail
  show String.mk (stripFencesL (interleave ps tail).data) = _
  rw [stripFencesL_interleave ps tail hps htail, ← String.data_append,
    mk_data]

/-- C3 witness: `a```code```b` becomes `ab`, keeping the outside text and
dropping the fenced block with its fences. -/
theorem replaceCodeBlocks_spec_witness :
    ((∀ p ∈ [("a", "code")],
        findSub fence (p.1.data ++ ['\x60', '\x60']) = none
        ∧ findSub fence (p.2.data ++ ['\x60', '\x60']) = none)
      ∧ noFenceB "b".data = true)
    ∧ replaceCodeBlocks (interleave [("a", "code")] "b")
        = concatList ([("a", "code")].map Prod.fst) ++ "b" :=
  ⟨⟨by decide, by decide⟩,
    replaceCodeBlocks_spec [("a", "code")] "b" (by decide) (by decide)⟩

/-- C4: when the Daily Notes plugin is missing or disabled, or when the
selected existing output file does not resolve in the vault, the merge stops
with the corresponding notice and the vault is untouched; in every other
case it reaches a `merged` outcome — notices are the only failure
handling. -/
theorem mergeDailyNotes_failure_notices
    (dn : Option DailyNotesPlugin) (v : Vault) (s : MergeDailyNotesSettings)
    (sd ed sel : String) :
    ((dn = none ∨ ∃ plug, dn = some plug ∧ plug.enabled = false) →
      mergeDailyNotes dn v s sd ed sel
        = ⟨{ s with lastStartDate := some sd, lastEndDate := some ed }, v,
            MergeOutcome.noticeDailyNotesDisabled⟩)
    ∧ (∀ plug, dn = some plug → plug.enabled = true → sel ≠ "new" →
        vaultGet v sel = none →
        mergeDailyNotes dn v s sd ed sel
          = ⟨{ s with lastStartDate := some sd, lastEndDate := some ed }, v,
              MergeOutcome.noticeFileNotFound⟩)
    ∧ (∀ plug, dn = some plug → plug.enabled = true →
        ∀ w, resolveOutput v s sd ed sel = some w →
        ∃ tr, (mergeDailyNotes dn v s sd ed sel).outcome
          = MergeOutcome.merged w.2 tr) := by
  refine ⟨?_, ?_, ?_⟩
  · rintro (rfl | ⟨plug, rfl, hdis⟩)
    · rfl
    · simp [mergeDailyNotes, hdis]
  · rintro plug rfl hen hnew hnf
    have hres : resolveOutput v s sd ed sel = none := by
      simp [resolveOutput, hnew, hnf]
    simp [mergeDailyNotes, hen, hres]
  · rintro plug rfl hen w hres
    obtain ⟨v1, outP⟩ := w
    exact ⟨_, mergeDailyNotes_ok_outcome hen hres⟩

/-- C4 witness: the three cases at concrete inputs — missing host plugin,
selected file not in the vault, and a successful resolution. -/
theorem mergeDailyNotes_failure_notices_witness :
    mergeDailyNotes none vaultW DEFAULT_SETTINGS "2024-01-01" "2024-01-02"
        "out.md"
      = ⟨{ DEFAULT_SETTINGS with lastStartDate := some "2024-01-01", lastEndDate := some "2024-01-02" }, vaultW,
          MergeOutcome.noticeDailyNotesDisabled⟩
    ∧ mergeDailyNotes (some dnW) vaultW DEFAULT_SETTINGS "2024-01-01"
        "2024-01-02" "missing.md"
      = ⟨{ DEFAULT_SETTINGS with lastStartDate := some "2024-01-01", lastEndDate := some "2024-01-02" }, vaultW,
          MergeOutcome.noticeFileNotFound⟩
    ∧ ∃ tr, (mergeDailyNotes (some dnW) vaultW DEFAULT_SETTINGS "2024-01-01"
        "2024-01-02" "out.md").outcome
      = MergeOutcome.merged (vaultW, "out.md").2 tr :=
  ⟨(mergeDailyNotes_failure_notices none vaultW DEFAULT_SETTINGS
      "2024-01-01" "2024-01-02" "out.md").1 (Or.inl rfl),
    (mergeDailyNotes_failure_notices (some dnW) vaultW DEFAULT_SETTINGS
      "2024-01-01" "2024-01-02" "missing.md").2.1 dnW rfl rfl (by decide)
      (by decide),
    (mergeDailyNotes_failure_notices (some dnW) vaultW DEFAULT_SETTINGS
      "2024-01-01" "2024-01-02" "out.md").2.2 dnW rfl rfl (vaultW, "out.md")
      (by decide)⟩

theorem runLoop_out (v : Vault) (dn : DailyNotesPlugin)
    (s : MergeDailyNotesSettings) (o sd ed : String) :
    vaultGet (runLoop v dn s o sd ed).1 o
      = (vaultGet v o).map
          (· ++ concatList ((runLoop v dn s o sd ed).2.filterMap Prod.snd)) := by
  cases hsd : parseISO sd with
  | some a =>
    cases hed : parseISO ed with
    | some b =>
      rw [runLoop_some hsd hed]
      exact mergeLoop_out (b + 1 - a) a b v rfl
    | none =>
      simp only [runLoop, hsd, hed]
      cases vaultGet v o <;> simp [concatList]
  | none =>
    simp only [runLoop, hsd]
    cases vaultGet v o <;> simp [concatList]

/-- C5: the destination is determined by the user's selection: the sentinel
`"new"` creates a new empty file `<mergePath>/<startDate> to <endDate>.md`
and all merged content is appended there; any other selection resolves at
that vault path and all merged content is appended to it. -/
theorem mergeDailyNotes_destination
    (plug : DailyNotesPlugin) (v : Vault) (s : MergeDailyNotesSettings)
    (sd ed sel : String) (hen : plug.enabled = true) :
    (sel = "new" →
      vaultGet v (s.mergePath ++ "/" ++ sd ++ " to " ++ ed ++ ".md") = none →
      ∃ tr, (mergeDailyNotes (some plug) v s sd ed sel).outcome
          = MergeOutcome.merged
              (s.mergePath ++ "/" ++ sd ++ " to " ++ ed ++ ".md") tr
        ∧ vaultGet (mergeDailyNotes (some plug) v s sd ed sel).vault
            (s.mergePath ++ "/" ++ sd ++ " to " ++ ed ++ ".md")
          = some (concatList (tr.filterMap Prod.snd)))
    ∧ (∀ init, sel ≠ "new" → vaultGet v sel = some init →
      ∃ tr, (mergeDailyNotes (some plug) v s sd ed sel).outcome
          = MergeOutcome.merged sel tr
        ∧ vaultGet (mergeDailyNotes (some plug) v s sd ed sel).vault sel
          = some (init ++ concatList (tr.filterMap Prod.snd))) := by
  constructor
  · intro hnew hfresh
    subst hnew
    have hres : resolveOutput v s sd ed "new"
        = some (vaultCreate v (s.mergePath ++ "/" ++ sd ++ " to " ++ ed ++ ".md"),
            s.mergePath ++ "/" ++ sd ++ " to " ++ ed ++ ".md") := by
      simp [resolveOutput]
    refine ⟨_, mergeDailyNotes_ok_outcome hen hres, ?_⟩
    rw [mergeDailyNotes_ok_vault hen hres, runLoop_out,
      vaultGet_create_fresh v _ hfresh]
    simp
  · intro init hnew hsel
    have hres : resolveOutput v s sd ed sel = some (v, sel) := by
      simp [resolveOutput, hnew, hsel]
    refine ⟨_, mergeDailyNotes_ok_outcome hen hres, ?_⟩
    rw [mergeDailyNotes_ok_vault hen hres, runLoop_out, hsel]
    rfl

/-- C5 witness: creating the new file `Merged Notes/2024-01-01 to
2024-01-02.md`, and appending to the existing `out.md`. -/
theorem mergeDailyNotes_destination_witness :
    (vaultGet vaultW ("Merged Notes" ++ "/" ++ "2024-01-01" ++ " to "
        ++ "2024-01-02" ++ ".md") = none
      ∧ ∃ tr, (mergeDailyNotes (some dnW) vaultW DEFAULT_SETTINGS "2024-01-01"
            "2024-01-02" "new").outcome
          = MergeOutcome.merged ("Merged Notes" ++ "/" ++ "2024-01-01"
              ++ " to " ++ "2024-01-02" ++ ".md") tr
        ∧ vaultGet (mergeDailyNotes (some dnW) vaultW DEFAULT_SETTINGS
              "2024-01-01" "2024-01-02" "new").vault
            ("Merged Notes" ++ "/" ++ "2024-01-01" ++ " to " ++ "2024-01-02"
              ++ ".md")
          = some (concatList (tr.filterMap Prod.snd)))
    ∧ (vaultGet vaultW "out.md" = some "start;"
      ∧ ∃ tr, (mergeDailyNotes (some dnW) vaultW DEFAULT_SETTINGS "2024-01-01"
            "2024-01-02" "out.md").outcome
          = MergeOutcome.merged "out.md" tr
        ∧ vaultGet (mergeDailyNotes (some dnW) vaultW DEFAULT_SETTINGS
              "2024-01-01" "2024-01-02" "out.md").vault "out.md"
          = some ("start;" ++ concatList (tr.filterMap Prod.snd))) :=
  ⟨⟨by decide,
      (mergeDailyNotes_destination dnW vaultW DEFAULT_SETTINGS "2024-01-01"
        "2024-01-02" "new" rfl).1 rfl (by decide)⟩,
    ⟨by decide,
      (mergeDailyNotes_destination dnW vaultW DEFAULT_SETTINGS "2024-01-01"
        "2024-01-02" "out.md" rfl).2 "start;" (by decide) (by decide)⟩⟩

/-- C7: the persistent state is the flat settings object persisted verbatim:
`saveSettings` stores every field of the settings object and `loadSettings`
merges the stored data over the defaults, so saving and then loading is the
identity on settings values. -/
theorem saveSettings_loadSettings_id (s : MergeDailyNotesSettings) :
    loadSettings (some (saveSettings s)) = s := rfl

/-- C8 counterexample: the settings panel creates three settings, but only
two of them are toggles — `Merge Path` is a text field — so it does not
expose exactly three toggle (boolean) settings. -/
theorem settingTab_not_three_toggles :
    ¬ (settingTabControls.filter isToggle).length = 3 := by decide

/-- C8 (amended): the modal picks a start date, an end date and an output
file — two date inputs, one output-file dropdown and the submit button — and
the settings panel exposes exactly three settings: one text setting (the
merge path) and exactly two toggle (boolean) settings. -/
theorem ui_structure :
    (datePickerModalControls.filter isDateInput).length = 2
    ∧ (datePickerModalControls.filter isFileSelect).length = 1
    ∧ datePickerModalControls.getLast? = some (UIControl.button "Merge Notes")
    ∧ (settingTabControls.filter isSettingRow).length = 3
    ∧ (settingTabControls.filter isToggle).length = 2
    ∧ settingTabControls.filter (fun c => isSettingRow c && !isToggle c)
      = [UIControl.textSetting "Merge Path"] := by decide

/-- C9: a day of the range whose daily-note file does not exist in the vault
contributes nothing: its loop-trace entry is `(d, none)`, the section
function gives no section for it, no notice is raised, and the merge still
ends in a `merged` outcome over the remaining days. -/
theorem mergeDailyNotes_skips_missing
    (plug : DailyNotesPlugin) (v v1 : Vault) (s : MergeDailyNotesSettings)
    (sd ed sel outP : String) (a b d : Nat)
    (hen : plug.enabled = true)
    (hres : resolveOutput v s sd ed sel = some (v1, outP))
    (hsd : parseISO sd = some a) (hed : parseISO ed = some b)
    (halias : ∀ e ∈ dayList a b, dailyPath plug e ≠ outP)
    (hd : d ∈ dayList a b)
    (hmiss : vaultGet v1 (dailyPath plug d) = none) :
    (mergeDailyNotes (some plug) v s sd ed sel).outcome
      = MergeOutcome.merged outP
          ((dayList a b).map
            (fun e => (e, (vaultGet v1 (dailyPath plug e)).map (mkSection s e))))
    ∧ (d, (none : Option String)) ∈ (dayList a b).map
        (fun e => (e, (vaultGet v1 (dailyPath plug e)).map (mkSection s e)))
    ∧ (vaultGet v1 (dailyPath plug d)).map (mkSection s d) = none := by
  have hrun : runLoop v1 plug
      { s with lastStartDate := some sd, lastEndDate := some ed } outP sd ed
      = mergeLoop v1 plug
          { s with lastStartDate := some sd, lastEndDate := some ed }
          outP a b :=
    runLoop_some hsd hed
  have htrace := @mergeLoop_trace plug
    { s with lastStartDate := some sd, lastEndDate := some ed } outP
    (b + 1 - a) a b v1 rfl halias
  refine ⟨?_, ?_, ?_⟩
  · rw [mergeDailyNotes_ok_outcome hen hres, hrun, htrace]
    rfl
  · refine List.mem_map.mpr ⟨d, hd, ?_⟩
    rw [hmiss]
    rfl
  · rw [hmiss]
    rfl

/-- C10: every invocation of `mergeDailyNotes` sets `lastStartDate` and
`lastEndDate` to the invocation's dates and leaves `mergePath`,
`stripFrontMatter` and `stripCodeBlocks` unchanged, on the success path and
on both early-return notice paths alike. -/
theorem mergeDailyNotes_settings_frame
    (dn : Option DailyNotesPlugin) (v : Vault) (s : MergeDailyNotesSettings)
    (sd ed sel : String) :
    (mergeDailyNotes dn v s sd ed sel).settings
      = { s with lastStartDate := some sd, lastEndDate := some ed }
    ∧ (mergeDailyNotes dn v s sd ed sel).settings.mergePath = s.mergePath
    ∧ (mergeDailyNotes dn v s sd ed sel).settings.stripFrontMatter
        = s.stripFrontMatter
    ∧ (mergeDailyNotes dn v s sd ed sel).settings.stripCodeBlocks
        = s.stripCodeBlocks
    ∧ (mergeDailyNotes dn v s sd ed sel).settings.lastStartDate = some sd
    ∧ (mergeDailyNotes dn v s sd ed sel).settings.lastEndDate = some ed := by
  have hs : (mergeDailyNotes dn v s sd ed sel).settings
      = { s with lastStartDate := some sd, lastEndDate := some ed } := by
    cases dn with
    | none => rfl
    | some plug =>
      cases hen : plug.enabled with
      | false => simp [mergeDailyNotes, hen]
      | true =>
        cases hres : resolveOutput v s sd ed sel with
        | none => simp [mergeDailyNotes, hen, hres]
        | some w =>
          obtain ⟨v1, p⟩ := w
          simp [mergeDailyNotes, hen, hres]
  exact ⟨hs, by rw [hs], by rw [hs], by rw [hs], by rw [hs], by rw [hs]⟩

/-- C1 witness: merging 2024-01-01..2024-01-02 from `vaultW` into `out.md`
(the note for 2024-01-01 exists, the one for 2024-01-02 does not). -/
theorem mergeDailyNotes_in_order_concat_witness :
    (parseISO "2024-01-01" = some 739191
      ∧ parseISO "2024-01-02" = some 739192
      ∧ resolveOutput vaultW DEFAULT_SETTINGS "2024-01-01" "2024-01-02"
          "out.md" = some (vaultW, "out.md")
      ∧ ∀ d ∈ dayList 739191 739192, dailyPath dnW d ≠ "out.md")
    ∧ ((mergeDailyNotes (some dnW) vaultW DEFAULT_SETTINGS "2024-01-01"
          "2024-01-02" "out.md").outcome
        = MergeOutcome.merged "out.md"
            ((dayList 739191 739192).map
              (fun d => (d, (vaultGet vaultW (dailyPath dnW d)).map
                (mkSection DEFAULT_SETTINGS d))))
      ∧ List.Pairwise (· < ·) (dayList 739191 739192)
      ∧ vaultGet (mergeDailyNotes (some dnW) vaultW DEFAULT_SETTINGS
            "2024-01-01" "2024-01-02" "out.md").vault "out.md"
          = (vaultGet vaultW "out.md").map
              (· ++ concatList ((dayList 739191 739192).filterMap
                (fun d => (vaultGet vaultW (dailyPath dnW d)).map
                  (mkSection DEFAULT_SETTINGS d))))) :=
  ⟨⟨by decide, by decide, by decide, by decide⟩,
    mergeDailyNotes_in_order_concat dnW vaultW vaultW DEFAULT_SETTINGS
      "2024-01-01" "2024-01-02" "out.md" "out.md" 739191 739192 rfl
      (by decide) (by decide) (by decide) (by decide)⟩

/-- C6 witness: a non-empty range (5..7: three iterations) and an empty
range (9..3: zero iterations, since the start is after the end). -/
theorem mergeLoop_iteration_count_witness :
    ((mergeLoop vaultW dnW DEFAULT_SETTINGS "out.md" 5 7).2.map Prod.fst
        = dayList 5 7
      ∧ (dayList 5 7).length = 7 + 1 - 5
      ∧ (7 < 5 → dayList 5 7 = [])
      ∧ List.Chain' (fun x y => y = x + 1) (dayList 5 7))
    ∧ ((mergeLoop vaultW dnW DEFAULT_SETTINGS "out.md" 9 3).2.map Prod.fst
        = dayList 9 3
      ∧ (dayList 9 3).length = 3 + 1 - 9
      ∧ (3 < 9 → dayList 9 3 = [])
      ∧ List.Chain' (fun x y => y = x + 1) (dayList 9 3))
    ∧ dayList 9 3 = [] :=
  ⟨mergeLoop_iteration_count vaultW dnW DEFAULT_SETTINGS "out.md" 5 7,
    mergeLoop_iteration_count vaultW dnW DEFAULT_SETTINGS "out.md" 9 3,
    (mergeLoop_iteration_count vaultW dnW DEFAULT_SETTINGS "out.md" 9 3).2.2.1
      (by decide)⟩

/-- C9 witness: in the range 2024-01-01..2024-01-02 over `vaultW`, the note
for 2024-01-02 is missing; its trace entry is `(739192, none)` and the merge
still succeeds. -/
theorem mergeDailyNotes_skips_missing_witness :
    (739192 ∈ dayList 739191 739192
      ∧ vaultGet vaultW (dailyPath dnW 739192) = none)
    ∧ ((mergeDailyNotes (some dnW) vaultW DEFAULT_SETTINGS "2024-01-01"
          "2024-01-02" "out.md").outcome
        = MergeOutcome.merged "out.md"
            ((dayList 739191 739192).map
              (fun e => (e, (vaultGet vaultW (dailyPath dnW e)).map
                (mkSection DEFAULT_SETTINGS e))))
      ∧ (739192, (none : Option String)) ∈ (dayList 739191 739192).map
          (fun e => (e, (vaultGet vaultW (dailyPath dnW e)).map
            (mkSection DEFAULT_SETTINGS e)))
      ∧ (vaultGet vaultW (dailyPath dnW 739192)).map
          (mkSection DEFAULT_SETTINGS 739192) = none) :=
  ⟨⟨by decide, by decide⟩,
    mergeDailyNotes_skips_missing dnW vaultW vaultW DEFAULT_SETTINGS
      "2024-01-01" "2024-01-02" "out.md" "out.md" 739191 739192 739192 rfl
      (by decide) (by decide) (by decide) (by decide) (by decide)
      (by decide)⟩

end MergeDailyNotes
